import Mathlib

/-!
Verification of the NGAS ingestion core (ngamsCmd_CARCHIVE.py and
ngamsCmd_MIRRARCHIVE.py) against its natural-language specification.

The Python source is shallowly embedded: pure computations become Lean
functions, database writes become explicit event traces, exceptions become
`Except`, machine integers become `Nat`/`Int`, and wall-clock floating-point
quantities become `ℚ`. Each definition carries a comment naming the source
lines it embeds. Definitions marked `Modelled from the spec:` stand for code
of the repository that lies outside the two source files (catalog/DB layer).
-/

/-! ## Mirror pipeline: fetch-failure taxonomy (ngamsCmd_MIRRARCHIVE.py 202-220) -/

/-- The kinds of exception that can escape `saveInStagingFile` into the
`except` chain of `__handleCmd` (ngamsCmd_MIRRARCHIVE.py lines 202-220):
the two already-classified exception types are re-raised as-is, and any
other exception carries `getattr(e, 'errno', 0)`. -/
inductive FetchError where
  | failedDownload : FetchError
  | postpone : FetchError
  | generic : Int → FetchError
deriving DecidableEq

/-- The two failure outcomes `__handleCmd` can raise for a failed fetch. -/
inductive MirrorOutcome where
  | failedDownloadException : MirrorOutcome
  | postponeException : MirrorOutcome
deriving DecidableEq

/-- The exception dispatch of `__handleCmd` (ngamsCmd_MIRRARCHIVE.py lines
202-220): re-raise the two classified exceptions; for a generic exception,
errno 28 (out of space) is a permanent failure, otherwise the code tests
`reqPropsObj.getBytesReceived() >= 0` and postpones, else fails. -/
def classifyFetchError : FetchError → Int → MirrorOutcome
  | FetchError.failedDownload, _ => MirrorOutcome.failedDownloadException
  | FetchError.postpone, _ => MirrorOutcome.postponeException
  | FetchError.generic errno, bytesReceived =>
      if errno = 28 then MirrorOutcome.failedDownloadException
      else if bytesReceived ≥ 0 then MirrorOutcome.postponeException
      else MirrorOutcome.failedDownloadException

/-! ## Mirror pipeline: the standalone checksum helper (lines 139-149) -/

/-- The Python values relevant to evaluating `len(buffer)` inside
`calculateCrc`: strings (byte strings, modeled as lists of byte values) and
type objects (the Python 2 builtin `buffer` is a type). -/
inductive PyVal where
  | str : List Nat → PyVal
  | typeObj : String → PyVal

/-- The message of the TypeError raised by Python `len` on a type object. -/
def lenTypeErrorMsg : String := "TypeError: object of type type has no len()"

/-- Python `len`: defined on strings, raises TypeError on a type object. -/
def pyLen : PyVal → Except String Nat
  | PyVal.str s => Except.ok s.length
  | PyVal.typeObj _ => Except.error lenTypeErrorMsg

/-- In Python 2, the bare name `buffer` inside `calculateCrc` is not a local
variable of the function (the function only ever assigns `buff`); it resolves
to the builtin type object `buffer`. -/
def bufferBuiltin : PyVal := PyVal.typeObj "buffer"

/-- `calculateCrc` (ngamsCmd_MIRRARCHIVE.py lines 139-149).
`content` stands for the bytes of the opened file and `blockSize` for the
read chunk size. The function sets `crc = 0`, opens the file, sets
`buff = "-"`, and then evaluates the loop condition `len(buffer) > 0` —
where `buffer` is the builtin type object, so `len` raises before any read.
The `finally` closes the file and the exception propagates. Were the
condition ever false the loop would exit with `crc = 0`; were it true, the
loop could never terminate since the condition never inspects `buff`
(modeled as an error). -/
def calculateCrc (content : List Nat) (blockSize : Nat) : Except String Int :=
  match pyLen bufferBuiltin with
  | Except.error e => Except.error e
  | Except.ok n =>
      if n > 0 then Except.error "nonterminating loop"
      else Except.ok 0

/-- The `ngas_files` row fields relevant to the committed checksum
(ngamsCmd_MIRRARCHIVE.py lines 200-201 and 238-257): `__handleCmd` sets
`checksum = stagingInfo[1]` — the checksum returned inline by the fetch —
and inserts it with plug-in tag "ngamsGenCrc32". -/
structure MirrorFileRow where
  fileId : String
  fileVersion : Nat
  checksum : Int
  checksumPlugIn : String
deriving DecidableEq

/-- The success-path insert of `__handleCmd` (lines 200-201, 250-256),
restricted to the checksum-related fields: the committed checksum is the
one returned by the fetch (`stagingInfo[1]`), not `calculateCrc`. -/
def mirrorCommitRow (fileId : String) (fileVersion : Nat)
    (stagingChecksum : Int) : MirrorFileRow :=
  { fileId := fileId, fileVersion := fileVersion,
    checksum := stagingChecksum, checksumPlugIn := "ngamsGenCrc32" }

/-! ## Mirror pipeline: volume selection (lines 63-78) -/

/-- A row of the `ngas_disks` table, restricted to the columns this core
reads or writes. `availableMb` is ℚ because the mirror commit SQL divides. -/
structure NgasDiskRow where
  diskId : String
  hostId : String
  completed : Nat
  availableMb : ℚ
  numberOfFiles : Nat
  bytesStored : Nat
deriving DecidableEq

/-- Substitute a string argument for the first `%s` conversion of a format
string, scanning left to right; `none` when the format string contains no
`%s` conversion (the only conversion kind used by this source). -/
def substPercentS : List Char → String → Option (List Char)
  | [], _ => none
  | '%' :: 's' :: rest, arg => some (arg.data ++ rest)
  | c :: rest, arg => (substPercentS rest arg).map (fun l => c :: l)

/-- The message of the TypeError raised by Python % formatting when an
argument is left unconverted. -/
def formatTypeErrorMsg : String :=
  "TypeError: not all arguments converted during string formatting"

/-- Python `%` formatting of a format string against one non-tuple argument:
the argument is substituted for a `%s` conversion; if the format string has
no conversion, the argument is left unconverted and a TypeError is raised. -/
def pyFormatOne (fmt arg : String) : Except String String :=
  match substPercentS fmt.data arg with
  | some cs => Except.ok (String.mk cs)
  | none => Except.error formatTypeErrorMsg

/-- First row of `order by available_mb desc`: the row with the greatest
`available_mb`, earlier rows winning ties. -/
def bestByAvailableMb : List NgasDiskRow → Option NgasDiskRow
  | [] => none
  | d :: ds =>
      match bestByAvailableMb ds with
      | none => some d
      | some e => if e.availableMb > d.availableMb then some e else some d

/-- `getTargetVolume` (ngamsCmd_MIRRARCHIVE.py lines 63-78). The source
builds the SQL string as
`"SELECT %s FROM ngas_disks nd WHERE completed=0 AND " + "host_id={0} order by available_mb desc" % ngamsDbCore.getNgasDisksCols()`;
Python `%` binds tighter than `+`, so the formatting applies to the second
literal alone. `cols` stands for `ngamsDbCore.getNgasDisksCols()` (external;
the comma-separated column-list string). On the (unreachable) success of the
formatting, the branch models the reading of the SQL text: the non-completed
rows of the host ordered by `available_mb` descending, first row or `None`. -/
def getTargetVolume (cols hostId : String) (catalog : List NgasDiskRow) :
    Except String (Option NgasDiskRow) :=
  match pyFormatOne "host_id={0} order by available_mb desc" cols with
  | Except.error e => Except.error e
  | Except.ok _tail =>
      Except.ok (bestByAvailableMb
        (catalog.filter (fun d => d.completed = 0 ∧ d.hostId = hostId)))

/-! ## Volume accounting updates (C9) -/

/-- The commit-path volume update of `__handleCmd`
(ngamsCmd_MIRRARCHIVE.py lines 235-237):
`update ngas_disks set available_mb = available_mb - :1 / (1024 * 1024), bytes_stored = bytes_stored + :2 where disk_id = :3`
with both parameters the file size. `number_of_files` is not touched. -/
def mirrorDiskUpdate (d : NgasDiskRow) (fileSize : Nat) : NgasDiskRow :=
  { d with availableMb := d.availableMb - (fileSize : ℚ) / (1024 * 1024),
           bytesStored := d.bytesStored + fileSize }

/-- Modelled from the spec: `srvObj.getDb().updateDiskInfo(fileSize, diskId)`
called by the multi-file pipeline (ngamsCmd_CARCHIVE.py line 371) lives in
the catalog layer outside the two source files. Spec §4.5 step 8 and §6:
"Update the volume's stored-bytes and file-count counters." -/
def dbUpdateDiskInfo (d : NgasDiskRow) (fileSize : Nat) : NgasDiskRow :=
  { d with bytesStored := d.bytesStored + fileSize,
           numberOfFiles := d.numberOfFiles + 1 }

/-! ## Staging Writer: saveFromHttpToFile (ngamsCmd_CARCHIVE.py 76-158) -/

/-- Events on the per-slot disk resource
(`ngamsHighLevelLib.acquireDiskResource` / `releaseDiskResource`). -/
inductive LockEvent where
  | acquire : String → LockEvent
  | release : String → LockEvent
deriving DecidableEq

/-- The exceptions that can escape the steps of `saveFromHttpToFile`. -/
inductive PyErr where
  | stagingAreaError : PyErr
  | acquireError : PyErr
  | parseError : PyErr
  | zeroDivisionError : PyErr
deriving DecidableEq

/-- The data `saveFromHttpToFile` returns on success (source line 153:
`[deltaTime, rootContainer, fileDataList, ingestRate]`), restricted to the
numeric components; the root container and file-data list come from the MIME
multipart parser, whose wire grammar is outside the modeled core. -/
structure SaveResult where
  deltaTime : ℚ
  ingestRate : ℚ
  bytesRead : Nat
deriving DecidableEq

/-- Line 148: `ingestRate = (float(bytesRead) / deltaTime)`. Python float
division raises ZeroDivisionError when `deltaTime` is zero; there is no
guard in the source. -/
def ingestRateCalc (bytesRead : Nat) (deltaTime : ℚ) : Except PyErr ℚ :=
  if deltaTime = 0 then Except.error PyErr.zeroDivisionError
  else Except.ok ((bytesRead : ℚ) / deltaTime)

/-- `saveFromHttpToFile` (ngamsCmd_CARCHIVE.py lines 76-158). The boolean
oracles mark which fallible steps raise: `createPathFails` for
`checkCreatePath` (before the `try`, so no lock event at all),
`acquireFails` for `acquireDiskResource` (first statement inside the `try`),
`parseFails` for the size determination / `parser.parse()` body. The second
component is the trace of disk-resource events: the `finally` block releases
the slot whenever `mutexDiskAccess` is set, on every exit of the `try`. -/
def saveFromHttpToFile (mutexDiskAccess : Bool) (slotId : String)
    (createPathFails acquireFails parseFails : Bool)
    (bytesRead : Nat) (deltaTime : ℚ) :
    Except PyErr SaveResult × List LockEvent :=
  if createPathFails then (Except.error PyErr.stagingAreaError, [])
  else
    let body : Except PyErr SaveResult × List LockEvent :=
      if mutexDiskAccess && acquireFails then (Except.error PyErr.acquireError, [])
      else
        let acq := if mutexDiskAccess then [LockEvent.acquire slotId] else []
        if parseFails then (Except.error PyErr.parseError, acq)
        else
          match ingestRateCalc bytesRead deltaTime with
          | Except.error e => (Except.error e, acq)
          | Except.ok rate =>
              (Except.ok { deltaTime := deltaTime, ingestRate := rate,
                           bytesRead := bytesRead }, acq)
    (body.1, body.2 ++ (if mutexDiskAccess then [LockEvent.release slotId] else []))

/-! ## Multi-file commit loop of handleCmd (ngamsCmd_CARCHIVE.py 272-373) -/

/-- One entry of `fileDataList` as consumed by the commit loop of
`handleCmd` (lines 274-298): the identity of the file's innermost enclosing
container — the loop uses `containerId = str(container.getContainerId())` —
and the file's uncompressed size `ngamsPlugInApi.getFileSize(filepath)`
(also used, at line 302, as the archived file size passed to
`updateDiskInfo`, since compression is "NONE"). -/
structure FileItem where
  containerId : String
  uncomprSize : Nat
deriving DecidableEq

/-- The database writes of one pass of the commit loop, as an event trace:
`fileWrite` stands for the file-record insert plus `addFileToContainer`
(lines 350-353), `setContainerSize` for `srvObj.getDb().setContainerSize`
(line 357), `updateDiskInfo` for `srvObj.getDb().updateDiskInfo` (line 371). -/
inductive DbEvent where
  | fileWrite : String → Nat → DbEvent
  | setContainerSize : String → Nat → DbEvent
  | updateDiskInfo : Nat → DbEvent
deriving DecidableEq

/-- Lines 296-298: `containerSizes[containerId] += uncomprSize`, creating
the entry at 0 first when absent. The Python dict is modeled as an
association list with unique keys. -/
def upsertSize : List (String × Nat) → String → Nat → List (String × Nat)
  | [], cid, sz => [(cid, sz)]
  | (k, v) :: rest, cid, sz =>
      if k = cid then (k, v + sz) :: rest
      else (k, v) :: upsertSize rest cid sz

/-- Dictionary lookup on the association list. -/
def sizesLookup : List (String × Nat) → String → Option Nat
  | [], _ => none
  | (k, v) :: rest, cid => if k = cid then some v else sizesLookup rest cid

/-- The commit loop of `handleCmd` (lines 274-373), restricted to the state
and writes the container-size and volume claims are about. Per file, in
source order: the running total of the file's container is bumped (lines
296-298), the file record is written and the file added to its container
(350-353), then `for contSizeInfo in containerSizes.iteritems():
setContainerSize(...)` writes every entry of the dict (355-357), then the
volume row is updated (371). Returns the final dict and the event trace. -/
def commitLoop : List FileItem → List (String × Nat) → List DbEvent →
    List (String × Nat) × List DbEvent
  | [], sizes, tr => (sizes, tr)
  | it :: rest, sizes, tr =>
      let sizes2 := upsertSize sizes it.containerId it.uncomprSize
      let tr2 := tr ++ [DbEvent.fileWrite it.containerId it.uncomprSize]
                    ++ sizes2.map (fun kv => DbEvent.setContainerSize kv.1 kv.2)
                    ++ [DbEvent.updateDiskInfo it.uncomprSize]
      commitLoop rest sizes2 tr2

/-- The sizes carried by the `setContainerSize` events for one container, in
trace order. -/
def setSizeCallsFor (tr : List DbEvent) (cid : String) : List Nat :=
  tr.filterMap (fun e =>
    match e with
    | DbEvent.setContainerSize c s => if c = cid then some s else none
    | _ => none)

/-- The container size finally persisted for `cid`: the value of the last
`setContainerSize` write for it, if any. -/
def lastSetSize (tr : List DbEvent) (cid : String) : Option Nat :=
  (setSizeCallsFor tr cid).getLast?

/-- The file sizes carried by the `updateDiskInfo` events, in trace order. -/
def diskUpdateSizes (tr : List DbEvent) : List Nat :=
  tr.filterMap (fun e =>
    match e with
    | DbEvent.updateDiskInfo s => some s
    | _ => none)

/-! ## Container hierarchy persistence: createContainers (ngamsCmd_CARCHIVE.py 161-180) -/

mutual
/-- The in-memory container tree built by the multipart handler: a name and
the ordered children (`container.getContainers()`). -/
inductive ContainerTree where
  | node : String → ContainerForest → ContainerTree
/-- An ordered list of sibling containers. -/
inductive ContainerForest where
  | nil : ContainerForest
  | cons : ContainerTree → ContainerForest → ContainerForest
end

mutual
/-- The container tree after persistence, each node annotated with its
catalog-issued identity (`container.setContainerId(containerId)`). -/
inductive IdTree where
  | node : Nat → String → IdForest → IdTree
/-- An ordered list of sibling annotated containers. -/
inductive IdForest where
  | nil : IdForest
  | cons : IdTree → IdForest → IdForest
end

/-- The identity of a persisted container (the root of an annotated tree). -/
def IdTree.rootId : IdTree → Nat
  | IdTree.node i _ _ => i

/-- A row of the `ngas_containers` table as created by
`srvObj.getDb().createContainer(containerName, containerSize=0, ...,
parentContainerId=..., ...)`; the parent identity is passed stringified
(`str(parentContainer.getContainerId())`) or `None` for the root. The
ingestion timestamp (`time.time()`, real wall-clock) is not modeled. -/
structure ContainerRow where
  containerId : Nat
  containerName : String
  containerSize : Nat
  parentContainerId : Option String
deriving DecidableEq

/-- The catalog state threaded through container creation: the next identity
the catalog will issue and the rows created so far, in creation order. -/
structure ContState where
  nextId : Nat
  rows : List ContainerRow
deriving DecidableEq

/-- Modelled from the spec: `srvObj.getDb().createContainer` is catalog code
outside the two source files. Spec §6: "create container (parent id, size,
timestamp) → identity" — the catalog appends the row and returns a fresh,
catalog-issued identity. -/
def createContainer (st : ContState) (name : String) (size : Nat)
    (parentContainerId : Option String) : Nat × ContState :=
  (st.nextId,
   { nextId := st.nextId + 1,
     rows := st.rows ++ [{ containerId := st.nextId, containerName := name,
                           containerSize := size,
                           parentContainerId := parentContainerId }] })

mutual
/-- `createContainers` (ngamsCmd_CARCHIVE.py lines 161-180): create this
container's row with size 0 and the parent's stringified identity (`None`
for the root), record the issued identity on the node, then recurse on the
children with this container as parent. -/
def createContainers : ContainerTree → Option Nat → ContState → IdTree × ContState
  | ContainerTree.node name cs, parentId, st =>
      let r := createContainer st name 0 (parentId.map toString)
      let rs := createContainersForest cs r.1 r.2
      (IdTree.node r.1 name rs.1, rs.2)
/-- The `for childContainer in container.getContainers():` recursion of
`createContainers`, parent identity already assigned. -/
def createContainersForest : ContainerForest → Nat → ContState → IdForest × ContState
  | ContainerForest.nil, _, st => (IdForest.nil, st)
  | ContainerForest.cons c cs, pid, st =>
      let r := createContainers c (some pid) st
      let rs := createContainersForest cs pid r.2
      (IdForest.cons r.1 rs.1, rs.2)
end

mutual
/-- Number of containers in a tree. -/
def containerCount : ContainerTree → Nat
  | ContainerTree.node _ cs => 1 + forestCount cs
/-- Number of containers in a forest. -/
def forestCount : ContainerForest → Nat
  | ContainerForest.nil => 0
  | ContainerForest.cons c cs => containerCount c + forestCount cs
end

mutual
/-- Pure description of the identities `createContainers` assigns: pre-order
numbering starting at `n`. -/
def annotate : ContainerTree → Nat → IdTree
  | ContainerTree.node name cs, n => IdTree.node n name (annotateForest cs (n + 1))
/-- Pre-order numbering of a forest starting at `n`. -/
def annotateForest : ContainerForest → Nat → IdForest
  | ContainerForest.nil, _ => IdForest.nil
  | ContainerForest.cons c cs, n =>
      IdForest.cons (annotate c n) (annotateForest cs (n + containerCount c))
end

mutual
/-- Pure description of the rows `createContainers` appends: this node's row
(size 0, parent as given) followed by the children's rows, identities issued
in pre-order starting at `n`. -/
def rowsSpec : ContainerTree → Option Nat → Nat → List ContainerRow
  | ContainerTree.node name cs, p, n =>
      { containerId := n, containerName := name, containerSize := 0,
        parentContainerId := p.map toString } :: rowsSpecForest cs n (n + 1)
/-- Rows for a forest whose members all have parent `pid`. -/
def rowsSpecForest : ContainerForest → Nat → Nat → List ContainerRow
  | ContainerForest.nil, _, _ => []
  | ContainerForest.cons c cs, pid, n =>
      rowsSpec c (some pid) n ++ rowsSpecForest cs pid (n + containerCount c)
end

mutual
/-- All (parent identity, child identity) edges of an annotated tree. -/
def idEdges : IdTree → List (Nat × Nat)
  | IdTree.node i _ cs => idForestEdges i cs
/-- Edges of a forest under parent `p`, plus the edges inside its members. -/
def idForestEdges : Nat → IdForest → List (Nat × Nat)
  | _, IdForest.nil => []
  | p, IdForest.cons c cs => (p, c.rootId) :: (idEdges c ++ idForestEdges p cs)
end

/-- The two-container scenario of the spec: container A holding container B. -/
def scenarioTree : ContainerTree :=
  ContainerTree.node "A" (ContainerForest.cons
    (ContainerTree.node "B" ContainerForest.nil) ContainerForest.nil)

/-! ## Theorems: C2, C3, C8, C10 -/

/-- A format string containing no `%` character has no conversion. -/
theorem substPercentS_no_percent (l : List Char) (arg : String)
    (h : ∀ c ∈ l, c ≠ '%') : substPercentS l arg = none := by
  induction l with
  | nil => rfl
  | cons c rest ih =>
      have hc : c ≠ '%' := h c (by simp)
      have hrest : ∀ x ∈ rest, x ≠ '%' := fun x hx => h x (by simp [hx])
      rw [substPercentS.eq_def]
      rcases rest with _ | ⟨d, rest2⟩
      · simp [substPercentS]
      · have hd : substPercentS (d :: rest2) arg = none := ih hrest
        split
        · next heq => exact absurd (by injection heq) hc
        · next => simp_all
        · next => simp_all

/-- C3: for every mirror-archive request in which the fetch raises an error
signaling that the local disk is out of space (errno 28), `__handleCmd`
raises the permanent-failure outcome (FailedDownloadException) regardless of
how many bytes have been received so far, and never the resumable outcome. -/
theorem mirror_out_of_space_always_permanent (bytesReceived : Int) :
    classifyFetchError (FetchError.generic 28) bytesReceived
        = MirrorOutcome.failedDownloadException ∧
    classifyFetchError (FetchError.generic 28) bytesReceived
        ≠ MirrorOutcome.postponeException := by
  refine ⟨rfl, ?_⟩
  simp [classifyFetchError]

/-- C2: the claim says a generic fetch error (errno absent, read as 0) with
zero bytes ever received raises FailedDownloadException; the code instead
tests `getBytesReceived() >= 0`, which holds at 0, and raises
PostponeException. This theorem evaluates the dispatch at the failing input:
generic error, errno 0, bytesReceived 0. -/
theorem mirror_zero_bytes_generic_error_resumes :
    classifyFetchError (FetchError.generic 0) 0
        = MirrorOutcome.postponeException := rfl

/-- C8: the claim says `getTargetVolume` returns a best-fit non-completed
volume (or None when none exists); instead, every invocation raises a
TypeError while building the SQL string, because the `%` formatting binds to
the second string literal, which contains no conversion specifier. -/
theorem getTargetVolume_raises_type_error (cols hostId : String)
    (catalog : List NgasDiskRow) :
    getTargetVolume cols hostId catalog = Except.error formatTypeErrorMsg := by
  have hnp : substPercentS ("host_id={0} order by available_mb desc").data cols
      = none := by
    have h : ∀ c ∈ ("host_id={0} order by available_mb desc").data, c ≠ '%' := by
      decide
    exact substPercentS_no_percent _ _ h
  simp [getTargetVolume, pyFormatOne, hnp]

/-- C10: `calculateCrc` never terminates normally with a checksum, for any
file content and block size — its loop condition evaluates `len(buffer)`
where `buffer` is the unassigned builtin type object, raising a TypeError
before any read; the checksum actually committed by `__handleCmd` is the one
returned inline by the fetch (`stagingInfo[1]`). -/
theorem calculateCrc_never_succeeds (content : List Nat) (blockSize : Nat)
    (fileId : String) (fileVersion : Nat) (stagingChecksum : Int) :
    calculateCrc content blockSize = Except.error lenTypeErrorMsg ∧
    (mirrorCommitRow fileId fileVersion stagingChecksum).checksum
        = stagingChecksum := by
  exact ⟨rfl, rfl⟩

/-! ## Theorems: C5, C6 -/

/-- C5: in `saveFromHttpToFile` with mutual exclusion requested
(`mutexDiskAccess` true), the per-slot disk resource is released on every
exit path of the guarded region — when the parse/write completes
successfully and when any exception (acquisition failure, parse failure,
zero elapsed time) propagates out: the event trace always ends with the
release of the slot. -/
theorem saveFromHttpToFile_releases_disk_resource (slotId : String)
    (acquireFails parseFails : Bool) (bytesRead : Nat) (deltaTime : ℚ) :
    (saveFromHttpToFile true slotId false acquireFails parseFails
        bytesRead deltaTime).2.getLast? = some (LockEvent.release slotId) ∧
    LockEvent.release slotId ∈ (saveFromHttpToFile true slotId false
        acquireFails parseFails bytesRead deltaTime).2 := by
  cases acquireFails <;> cases parseFails <;>
    simp [saveFromHttpToFile, ingestRateCalc] <;>
    rcases eq_or_ne deltaTime 0 with h | h <;> simp [h]

/-- C6: the claim says the ingest-rate computation is zero-guarded when the
elapsed time is zero; instead `saveFromHttpToFile` fails with a
ZeroDivisionError at elapsed time 0 (here: 1024 bytes read, elapsed 0). -/
theorem saveFromHttpToFile_zero_elapsed_fails :
    (saveFromHttpToFile true "FitsStorage1" false false false 1024 0).1
        = Except.error PyErr.zeroDivisionError := by
  simp [saveFromHttpToFile, ingestRateCalc]

/-- C6 (amended): when the elapsed time is nonzero (and no step raises), the
ingest rate returned by `saveFromHttpToFile` equals bytes actually read
divided by the elapsed time; at elapsed time zero the computation raises
rather than returning a guarded value. -/
theorem saveFromHttpToFile_ingest_rate (slotId : String) (bytesRead : Nat)
    (deltaTime : ℚ) (h : deltaTime ≠ 0) :
    (saveFromHttpToFile true slotId false false false bytesRead deltaTime).1
        = Except.ok { deltaTime := deltaTime,
                      ingestRate := (bytesRead : ℚ) / deltaTime,
                      bytesRead := bytesRead } := by
  simp [saveFromHttpToFile, ingestRateCalc, h]

/-- Witness for C6 (amended) at 1024 bytes over 2 seconds. -/
theorem saveFromHttpToFile_ingest_rate_witness :
    ((2 : ℚ) ≠ 0) ∧
    (saveFromHttpToFile true "FitsStorage1" false false false 1024 2).1
        = Except.ok { deltaTime := 2, ingestRate := (1024 : ℚ) / 2,
                      bytesRead := 1024 } :=
  ⟨by norm_num, saveFromHttpToFile_ingest_rate "FitsStorage1" 1024 2 (by norm_num)⟩

/-! ## Theorems: commit-loop lemmas and C1, C7, C9 -/

theorem upsert_lookup_self (d : List (String × Nat)) (cid : String) (sz : Nat) :
    sizesLookup (upsertSize d cid sz) cid
      = some ((sizesLookup d cid).getD 0 + sz) := by
  induction d with
  | nil => simp [upsertSize, sizesLookup]
  | cons kv rest ih =>
      obtain ⟨k, v⟩ := kv
      by_cases h : k = cid
      · subst h
        simp [upsertSize, sizesLookup]
      · simp [upsertSize, sizesLookup, h, ih]

theorem upsert_lookup_other (d : List (String × Nat)) (cid x : String)
    (sz : Nat) (h : x ≠ cid) :
    sizesLookup (upsertSize d cid sz) x = sizesLookup d x := by
  have hcx : cid ≠ x := Ne.symm h
  induction d with
  | nil => simp [upsertSize, sizesLookup, hcx]
  | cons kv rest ih =>
      obtain ⟨k, v⟩ := kv
      by_cases hk : k = cid
      · subst hk
        have hkx : ¬k = x := hcx
        simp [upsertSize, sizesLookup, hkx]
      · simp [upsertSize, sizesLookup, hk, ih]

theorem upsert_keys (d : List (String × Nat)) (cid : String) (sz : Nat) :
    (upsertSize d cid sz).map Prod.fst
      = if cid ∈ d.map Prod.fst then d.map Prod.fst
        else d.map Prod.fst ++ [cid] := by
  induction d with
  | nil => simp [upsertSize]
  | cons kv rest ih =>
      obtain ⟨k, v⟩ := kv
      by_cases hk : k = cid
      · subst hk
        simp [upsertSize]
      · by_cases hm : cid ∈ rest.map Prod.fst <;>
          simp [upsertSize, hk, Ne.symm hk, hm, ih]

theorem upsert_keys_nodup (d : List (String × Nat)) (cid : String) (sz : Nat)
    (h : (d.map Prod.fst).Nodup) :
    ((upsertSize d cid sz).map Prod.fst).Nodup := by
  rw [upsert_keys]
  by_cases hm : cid ∈ d.map Prod.fst
  · simpa [hm] using h
  · rw [if_neg hm]
    simp [List.nodup_append, h, hm]

theorem lookup_none_iff (d : List (String × Nat)) (x : String) :
    sizesLookup d x = none ↔ x ∉ d.map Prod.fst := by
  induction d with
  | nil => simp [sizesLookup]
  | cons kv rest ih =>
      obtain ⟨k, v⟩ := kv
      by_cases h : k = x
      · subst h
        simp [sizesLookup]
      · simp [sizesLookup, h, ih, Ne.symm h]

theorem setSizeCalls_append (a b : List DbEvent) (cid : String) :
    setSizeCallsFor (a ++ b) cid
      = setSizeCallsFor a cid ++ setSizeCallsFor b cid := by
  simp [setSizeCallsFor, List.filterMap_append]

theorem batch_calls (d : List (String × Nat)) (cid : String)
    (h : (d.map Prod.fst).Nodup) :
    setSizeCallsFor (d.map (fun kv => DbEvent.setContainerSize kv.1 kv.2)) cid
      = (sizesLookup d cid).toList := by
  induction d with
  | nil => simp [setSizeCallsFor, sizesLookup]
  | cons kv rest ih =>
      obtain ⟨k, v⟩ := kv
      simp only [List.map_cons, List.nodup_cons] at h
      by_cases hk : k = cid
      · subst hk
        have hrest : sizesLookup rest k = none := (lookup_none_iff rest k).2 h.1
        have hb := ih h.2
        simp only [setSizeCallsFor, List.filterMap_map] at hb ⊢
        simp only [List.map_cons, List.filterMap_cons, Function.comp]
        simp [hb, hrest, sizesLookup]
      · have hb := ih h.2
        simp only [setSizeCallsFor, List.filterMap_map] at hb ⊢
        simp only [List.map_cons, List.filterMap_cons, Function.comp]
        simp [hb, hk, sizesLookup]

theorem commitLoop_fst (items : List FileItem) (sizes : List (String × Nat))
    (tr : List DbEvent) :
    (commitLoop items sizes tr).1
      = items.foldl (fun d it => upsertSize d it.containerId it.uncomprSize) sizes := by
  induction items generalizing sizes tr with
  | nil => simp [commitLoop]
  | cons it rest ih => simp [commitLoop, ih]

theorem foldl_upsert_lookup (items : List FileItem)
    (sizes : List (String × Nat)) (cid : String) :
    sizesLookup
        (items.foldl (fun d it => upsertSize d it.containerId it.uncomprSize) sizes)
        cid
      = if (items.filter fun it => it.containerId = cid).isEmpty
        then sizesLookup sizes cid
        else some ((sizesLookup sizes cid).getD 0
          + ((items.filter fun it => it.containerId = cid).map
                FileItem.uncomprSize).sum) := by
  induction items generalizing sizes with
  | nil => simp
  | cons it rest ih =>
      simp only [List.foldl_cons]
      rw [ih]
      by_cases h : it.containerId = cid
      · have hself := upsert_lookup_self sizes cid it.uncomprSize
        have harg : upsertSize sizes it.containerId it.uncomprSize
            = upsertSize sizes cid it.uncomprSize := by rw [h]
        rcases hrf : rest.filter (fun x => x.containerId = cid) with _ | ⟨y, ys⟩
        · simp [List.filter_cons, h, harg, hself, hrf]
        · simp [List.filter_cons, h, harg, hself, hrf, add_assoc]
      · have hother := upsert_lookup_other sizes it.containerId cid
          it.uncomprSize (Ne.symm h)
        simp [List.filter_cons, h, hother]

theorem foldl_upsert_lookup_none (items : List FileItem)
    (sizes : List (String × Nat)) (cid : String)
    (h : sizesLookup
        (items.foldl (fun d it => upsertSize d it.containerId it.uncomprSize) sizes)
        cid = none) :
    sizesLookup sizes cid = none := by
  rw [foldl_upsert_lookup] at h
  by_cases he : (items.filter fun it => it.containerId = cid).isEmpty
  · simpa [he] using h
  · simp [he] at h

theorem getLast?_append_toList (a : List Nat) (o : Option Nat) :
    (a ++ o.toList).getLast? = o.elim a.getLast? some := by
  cases o with
  | none => simp
  | some v => simp [List.getLast?_concat]

theorem lastSetSize_batch (tr : List DbEvent) (d : List (String × Nat))
    (c : String) (s s2 : Nat) (cid : String)
    (hnd : (d.map Prod.fst).Nodup) :
    lastSetSize (tr ++ [DbEvent.fileWrite c s]
        ++ d.map (fun kv => DbEvent.setContainerSize kv.1 kv.2)
        ++ [DbEvent.updateDiskInfo s2]) cid
      = (sizesLookup d cid).elim (lastSetSize tr cid) some := by
  simp only [lastSetSize, setSizeCalls_append, batch_calls d cid hnd]
  have h1 : setSizeCallsFor [DbEvent.fileWrite c s] cid = [] := by
    simp [setSizeCallsFor]
  have h2 : setSizeCallsFor [DbEvent.updateDiskInfo s2] cid = [] := by
    simp [setSizeCallsFor]
  rw [h1, h2, List.append_nil, List.append_nil]
  exact getLast?_append_toList _ _

theorem commitLoop_lastSetSize (items : List FileItem)
    (sizes : List (String × Nat)) (tr : List DbEvent) (cid : String)
    (hnd : (sizes.map Prod.fst).Nodup) (hne : items ≠ []) :
    lastSetSize (commitLoop items sizes tr).2 cid
      = (sizesLookup (commitLoop items sizes tr).1 cid).elim
          (lastSetSize tr cid) some := by
  induction items generalizing sizes tr with
  | nil => exact absurd rfl hne
  | cons it rest ih =>
      have hnd2 := upsert_keys_nodup sizes it.containerId it.uncomprSize hnd
      rw [commitLoop]
      rcases Decidable.em (rest = []) with hrest | hrest
      · subst hrest
        rw [commitLoop]
        exact lastSetSize_batch tr _ _ _ _ cid hnd2
      · rw [ih _ _ hnd2 hrest]
        rcases hfin : sizesLookup (commitLoop rest
            (upsertSize sizes it.containerId it.uncomprSize)
            (tr ++ [DbEvent.fileWrite it.containerId it.uncomprSize]
              ++ (upsertSize sizes it.containerId it.uncomprSize).map
                  (fun kv => DbEvent.setContainerSize kv.1 kv.2)
              ++ [DbEvent.updateDiskInfo it.uncomprSize])).1 cid with _ | v
        · have hs2 : sizesLookup (upsertSize sizes it.containerId it.uncomprSize)
              cid = none := by
            apply foldl_upsert_lookup_none rest _ cid
            rw [← commitLoop_fst rest _
              (tr ++ [DbEvent.fileWrite it.containerId it.uncomprSize]
                ++ (upsertSize sizes it.containerId it.uncomprSize).map
                    (fun kv => DbEvent.setContainerSize kv.1 kv.2)
                ++ [DbEvent.updateDiskInfo it.uncomprSize])]
            exact hfin
          simp only [Option.elim]
          rw [lastSetSize_batch tr _ _ _ _ cid hnd2, hs2]
          rfl
        · simp [Option.elim]

/-- C1 (amended): the container size finally persisted by the commit loop of
`handleCmd` for a container is exactly the sum of the uncompressed sizes of
the files directly attached to that container — files inside nested child
containers count toward the child only — and a container with no directly
attached file receives no `setContainerSize` write at all. -/
theorem handleCmd_setContainerSize_direct_sum (items : List FileItem)
    (cid : String) :
    lastSetSize (commitLoop items [] []).2 cid
      = if (items.filter fun it => it.containerId = cid).isEmpty then none
        else some (((items.filter fun it => it.containerId = cid).map
            FileItem.uncomprSize).sum) := by
  rcases Decidable.em (items = []) with h | h
  · subst h
    simp [commitLoop, lastSetSize, setSizeCallsFor]
  · rw [commitLoop_lastSetSize items [] [] cid (by simp) h]
    have hf : sizesLookup (commitLoop items [] []).1 cid
        = if (items.filter fun it => it.containerId = cid).isEmpty then none
          else some (0 + ((items.filter fun it => it.containerId = cid).map
              FileItem.uncomprSize).sum) := by
      rw [commitLoop_fst, foldl_upsert_lookup]
      simp [sizesLookup]
    rw [hf]
    by_cases he : (items.filter fun it => it.containerId = cid).isEmpty <;>
      simp [he, lastSetSize, setSizeCallsFor, Option.elim]

/-- C1 (counterexample): the scenario of the claim — container A (persisted
id "1") holds a 100-byte file, A's child container B (persisted id "2")
holds a 200-byte file; the claim says A's persisted size is 300 (the
descendant sum), but the last `setContainerSize` write for A carries 100. -/
theorem scenario_nested_containers_root_size :
    lastSetSize (commitLoop
        [{ containerId := "1", uncomprSize := 100 },
         { containerId := "2", uncomprSize := 200 }] [] []).2 "1"
      ≠ some 300 := by decide

theorem commitLoop_calls_length_present (items : List FileItem)
    (sizes : List (String × Nat)) (tr : List DbEvent) (cid : String)
    (hnd : (sizes.map Prod.fst).Nodup)
    (hmem : (sizesLookup sizes cid).isSome) :
    (setSizeCallsFor (commitLoop items sizes tr).2 cid).length
      = (setSizeCallsFor tr cid).length + items.length := by
  induction items generalizing sizes tr with
  | nil => simp [commitLoop]
  | cons it rest ih =>
      have hnd2 := upsert_keys_nodup sizes it.containerId it.uncomprSize hnd
      have hmem2 : (sizesLookup (upsertSize sizes it.containerId it.uncomprSize)
          cid).isSome := by
        by_cases h : it.containerId = cid
        · rw [h, upsert_lookup_self]
          rfl
        · rw [upsert_lookup_other _ _ _ _ (Ne.symm h)]
          exact hmem
      rw [commitLoop, ih _ _ hnd2 hmem2]
      have h1 : setSizeCallsFor [DbEvent.fileWrite it.containerId it.uncomprSize]
          cid = [] := by simp [setSizeCallsFor]
      have h2 : setSizeCallsFor [DbEvent.updateDiskInfo it.uncomprSize] cid = [] := by
        simp [setSizeCallsFor]
      rcases hv : sizesLookup (upsertSize sizes it.containerId it.uncomprSize) cid
        with _ | v
      · rw [hv] at hmem2
        simp at hmem2
      · rw [setSizeCalls_append, setSizeCalls_append, setSizeCalls_append,
          batch_calls _ cid hnd2, hv, h1, h2]
        simp
        omega

theorem commitLoop_calls_length_absent (items : List FileItem)
    (sizes : List (String × Nat)) (tr : List DbEvent) (cid : String)
    (hnd : (sizes.map Prod.fst).Nodup)
    (hmem : sizesLookup sizes cid = none) :
    (setSizeCallsFor (commitLoop items sizes tr).2 cid).length
      = (setSizeCallsFor tr cid).length
        + (items.length - items.findIdx (fun it => it.containerId = cid)) := by
  induction items generalizing sizes tr with
  | nil => simp [commitLoop]
  | cons it rest ih =>
      have hnd2 := upsert_keys_nodup sizes it.containerId it.uncomprSize hnd
      rw [commitLoop]
      have h1 : setSizeCallsFor [DbEvent.fileWrite it.containerId it.uncomprSize]
          cid = [] := by simp [setSizeCallsFor]
      have h2 : setSizeCallsFor [DbEvent.updateDiskInfo it.uncomprSize] cid = [] := by
        simp [setSizeCallsFor]
      by_cases h : it.containerId = cid
      · have hmem2 : (sizesLookup (upsertSize sizes it.containerId it.uncomprSize)
            cid).isSome := by
          rw [h, upsert_lookup_self]
          rfl
        rw [commitLoop_calls_length_present rest _ _ cid hnd2 hmem2]
        rcases hv : sizesLookup (upsertSize sizes it.containerId it.uncomprSize) cid
          with _ | v
        · rw [hv] at hmem2
          simp at hmem2
        · rw [setSizeCalls_append, setSizeCalls_append, setSizeCalls_append,
            batch_calls _ cid hnd2, hv, h1, h2]
          simp [List.findIdx_cons, h]
          omega
      · have hmem2 : sizesLookup (upsertSize sizes it.containerId it.uncomprSize)
            cid = none := by
          rw [upsert_lookup_other _ _ _ _ (Ne.symm h)]
          exact hmem
        rw [ih _ _ hnd2 hmem2]
        rw [setSizeCalls_append, setSizeCalls_append, setSizeCalls_append,
          batch_calls _ cid hnd2, hmem2, h1, h2]
        simp [List.findIdx_cons, h]

/-- C7 (amended): `setContainerSize` is invoked inside the per-file loop,
not once after all files: after each file, the loop writes the running total
of every container touched so far, so a container first touched by the
(i+1)-th of n files receives n - i writes — one per file from its first
touch onward — rather than exactly one. (`findIdx` is the 0-based index of
the container's first file, and equals n when the container is never
touched, making the count 0.) -/
theorem handleCmd_setContainerSize_per_file (items : List FileItem)
    (cid : String) :
    (setSizeCallsFor (commitLoop items [] []).2 cid).length
      = items.length - items.findIdx (fun it => it.containerId = cid) := by
  have h := commitLoop_calls_length_absent items [] [] cid (by simp) rfl
  simpa [setSizeCallsFor] using h

/-- C7 (counterexample): two files in containers "1" and "2" — the claim
says each touched container receives exactly one `setContainerSize` write,
but container "1" is written twice (once after each file). -/
theorem scenario_two_files_write_count :
    (setSizeCallsFor (commitLoop
        [{ containerId := "1", uncomprSize := 100 },
         { containerId := "2", uncomprSize := 200 }] [] []).2 "1").length
      ≠ 1 := by decide

theorem diskUpdateSizes_append (a b : List DbEvent) :
    diskUpdateSizes (a ++ b) = diskUpdateSizes a ++ diskUpdateSizes b := by
  simp [diskUpdateSizes, List.filterMap_append]

theorem diskUpdateSizes_batch (d : List (String × Nat)) :
    diskUpdateSizes (d.map (fun kv => DbEvent.setContainerSize kv.1 kv.2)) = [] := by
  induction d with
  | nil => rfl
  | cons kv rest ih =>
      simp only [diskUpdateSizes, List.map_cons, List.filterMap_cons] at ih ⊢
      exact ih

theorem commitLoop_diskUpdates (items : List FileItem)
    (sizes : List (String × Nat)) (tr : List DbEvent) :
    diskUpdateSizes (commitLoop items sizes tr).2
      = diskUpdateSizes tr ++ items.map FileItem.uncomprSize := by
  induction items generalizing sizes tr with
  | nil => simp [commitLoop]
  | cons it rest ih =>
      rw [commitLoop, ih]
      rw [diskUpdateSizes_append, diskUpdateSizes_append, diskUpdateSizes_append,
        diskUpdateSizes_batch]
      simp [diskUpdateSizes, List.filterMap_cons]

/-- C9 (amended): after every committed file the multi-file pipeline updates
the volume row through the catalog operation (stored bytes grow by the file
size, the file count by one — one `updateDiskInfo` call per file of the
request, carrying the file's size); the mirror pipeline's commit SQL grows
`bytes_stored` by the file size but leaves `number_of_files` unchanged. -/
theorem volume_accounting_update (d : NgasDiskRow) (sz : Nat)
    (items : List FileItem) :
    (dbUpdateDiskInfo d sz).bytesStored = d.bytesStored + sz ∧
    (dbUpdateDiskInfo d sz).numberOfFiles = d.numberOfFiles + 1 ∧
    (mirrorDiskUpdate d sz).bytesStored = d.bytesStored + sz ∧
    (mirrorDiskUpdate d sz).numberOfFiles = d.numberOfFiles ∧
    diskUpdateSizes (commitLoop items [] []).2 = items.map FileItem.uncomprSize := by
  refine ⟨rfl, rfl, rfl, rfl, ?_⟩
  have h := commitLoop_diskUpdates items [] []
  simpa [diskUpdateSizes] using h

/-- C9 (counterexample): the mirror pipeline's commit update leaves the
file-count counter unchanged — a volume with 5 files still records 5 files
after a 100-byte file is committed, not 6 as the claim requires. -/
theorem mirror_commit_file_count_unchanged :
    ¬ ((mirrorDiskUpdate
        { diskId := "d1", hostId := "h1", completed := 0, availableMb := 100,
          numberOfFiles := 5, bytesStored := 1000 } 100).numberOfFiles
      = 5 + 1) := by
  simp [mirrorDiskUpdate]

/-! ## Theorems: container persistence (C4) -/

mutual
theorem createContainers_eq (t : ContainerTree) (p : Option Nat) (st : ContState) :
    createContainers t p st
      = (annotate t st.nextId,
         { nextId := st.nextId + containerCount t,
           rows := st.rows ++ rowsSpec t p st.nextId }) := by
  cases t with
  | node name cs =>
      have h := createContainersForest_eq cs st.nextId
        { nextId := st.nextId + 1,
          rows := st.rows ++ [{ containerId := st.nextId, containerName := name,
                                containerSize := 0,
                                parentContainerId := p.map toString }] }
      simp only [createContainers, createContainer, h, annotate, containerCount,
        rowsSpec]
      simp [Prod.mk.injEq, ContState.mk.injEq, Nat.add_assoc]

theorem createContainersForest_eq (cs : ContainerForest) (pid : Nat)
    (st : ContState) :
    createContainersForest cs pid st
      = (annotateForest cs st.nextId,
         { nextId := st.nextId + forestCount cs,
           rows := st.rows ++ rowsSpecForest cs pid st.nextId }) := by
  cases cs with
  | nil => simp [createContainersForest, annotateForest, forestCount, rowsSpecForest]
  | cons c cs2 =>
      have h1 := createContainers_eq c (some pid) st
      have h2 := createContainersForest_eq cs2 pid
        { nextId := st.nextId + containerCount c,
          rows := st.rows ++ rowsSpec c (some pid) st.nextId }
      simp only [createContainersForest, h1, h2, annotateForest, forestCount,
        rowsSpecForest]
      simp [Prod.mk.injEq, ContState.mk.injEq, Nat.add_assoc]
end

mutual
theorem rowsSpec_length (t : ContainerTree) (p : Option Nat) (n : Nat) :
    (rowsSpec t p n).length = containerCount t := by
  cases t with
  | node name cs =>
      simp [rowsSpec, containerCount, rowsSpecForest_length cs n (n + 1),
        Nat.add_comm]

theorem rowsSpecForest_length (cs : ContainerForest) (pid : Nat) (n : Nat) :
    (rowsSpecForest cs pid n).length = forestCount cs := by
  cases cs with
  | nil => simp [rowsSpecForest, forestCount]
  | cons c cs2 =>
      simp [rowsSpecForest, forestCount, rowsSpec_length c (some pid) n,
        rowsSpecForest_length cs2 pid (n + containerCount c)]
end

theorem containerCount_pos (t : ContainerTree) : 1 ≤ containerCount t := by
  cases t with
  | node name cs => simp [containerCount]

mutual
theorem rowsSpec_size_zero (t : ContainerTree) (p : Option Nat) (n : Nat) :
    ∀ r ∈ rowsSpec t p n, r.containerSize = 0 := by
  cases t with
  | node name cs =>
      intro r hr
      simp only [rowsSpec, List.mem_cons] at hr
      rcases hr with h | h
      · rw [h]
      · exact rowsSpecForest_size_zero cs n (n + 1) r h

theorem rowsSpecForest_size_zero (cs : ContainerForest) (pid : Nat) (n : Nat) :
    ∀ r ∈ rowsSpecForest cs pid n, r.containerSize = 0 := by
  cases cs with
  | nil => intro r hr; simp [rowsSpecForest] at hr
  | cons c cs2 =>
      intro r hr
      simp only [rowsSpecForest, List.mem_append] at hr
      rcases hr with h | h
      · exact rowsSpec_size_zero c (some pid) n r h
      · exact rowsSpecForest_size_zero cs2 pid (n + containerCount c) r h
end

mutual
theorem rowsSpec_idAt (t : ContainerTree) (p : Option Nat) (n k : Nat)
    (r : ContainerRow) (h : (rowsSpec t p n)[k]? = some r) :
    r.containerId = n + k := by
  cases t with
  | node name cs =>
      cases k with
      | zero =>
          simp only [rowsSpec, List.getElem?_cons_zero, Option.some.injEq] at h
          rw [← h]
          simp
      | succ k2 =>
          simp only [rowsSpec, List.getElem?_cons_succ] at h
          have := rowsSpecForest_idAt cs n (n + 1) k2 r h
          omega

theorem rowsSpecForest_idAt (cs : ContainerForest) (pid : Nat) (n k : Nat)
    (r : ContainerRow) (h : (rowsSpecForest cs pid n)[k]? = some r) :
    r.containerId = n + k := by
  cases cs with
  | nil => simp [rowsSpecForest] at h
  | cons c cs2 =>
      simp only [rowsSpecForest] at h
      rcases Nat.lt_or_ge k (containerCount c) with hk | hk
      · rw [List.getElem?_append_left (by rw [rowsSpec_length]; exact hk)] at h
        exact rowsSpec_idAt c (some pid) n k r h
      · rw [List.getElem?_append_right (by rw [rowsSpec_length]; exact hk)] at h
        rw [rowsSpec_length] at h
        have := rowsSpecForest_idAt cs2 pid (n + containerCount c)
          (k - containerCount c) r h
        omega
end

mutual
theorem idEdges_rows (t : ContainerTree) (p : Option Nat) (n a b : Nat)
    (h : (a, b) ∈ idEdges (annotate t n)) :
    n ≤ a ∧ a < b ∧ b < n + containerCount t ∧
      ∃ nm, (rowsSpec t p n)[b - n]?
        = some { containerId := b, containerName := nm, containerSize := 0,
                 parentContainerId := some (toString a) } := by
  cases t with
  | node name cs =>
      simp only [annotate, idEdges] at h
      obtain ⟨hpar, hb1, hb2, nm, hrow⟩ := idForestEdges_rows cs n (n + 1) a b h
      refine ⟨?_, ?_, ?_, nm, ?_⟩
      · rcases hpar with rfl | ⟨h1, _⟩ <;> omega
      · rcases hpar with rfl | ⟨h1, h2⟩ <;> omega
      · simp only [containerCount]
        omega
      · simp only [rowsSpec]
        have hidx : b - n = (b - (n + 1)) + 1 := by omega
        rw [hidx, List.getElem?_cons_succ]
        exact hrow

theorem idForestEdges_rows (cs : ContainerForest) (pid m a b : Nat)
    (h : (a, b) ∈ idForestEdges pid (annotateForest cs m)) :
    (a = pid ∨ (m ≤ a ∧ a < b)) ∧ m ≤ b ∧ b < m + forestCount cs ∧
      ∃ nm, (rowsSpecForest cs pid m)[b - m]?
        = some { containerId := b, containerName := nm, containerSize := 0,
                 parentContainerId := some (toString a) } := by
  cases cs with
  | nil => simp [annotateForest, idForestEdges] at h
  | cons c cs2 =>
      simp only [annotateForest, idForestEdges, List.mem_cons, List.mem_append] at h
      rcases h with hhead | hinner | htail
      · have hroot : (annotate c m).rootId = m := by
          cases c with
          | node nm2 cc => simp [annotate, IdTree.rootId]
        rw [hroot] at hhead
        injection hhead with ha hb
        subst ha
        subst hb
        have hcpos := containerCount_pos c
        refine ⟨Or.inl rfl, le_refl b, ?_, ?_⟩
        · simp only [forestCount]
          omega
        · cases c with
          | node nm2 cc =>
              refine ⟨nm2, ?_⟩
              simp [rowsSpecForest, rowsSpec, List.cons_append]
      · obtain ⟨ha, hab, hb, nm, hrow⟩ := idEdges_rows c (some pid) m a b hinner
        refine ⟨Or.inr ⟨ha, hab⟩, by omega, ?_, nm, ?_⟩
        · simp only [forestCount]
          omega
        · simp only [rowsSpecForest]
          rw [List.getElem?_append_left (by rw [rowsSpec_length]; omega)]
          exact hrow
      · obtain ⟨hpar, hb1, hb2, nm, hrow⟩ :=
          idForestEdges_rows cs2 pid (m + containerCount c) a b htail
        have hcpos := containerCount_pos c
        refine ⟨?_, by omega, ?_, nm, ?_⟩
        · rcases hpar with rfl | ⟨h1, h2⟩
          · exact Or.inl rfl
          · exact Or.inr ⟨by omega, h2⟩
        · simp only [forestCount]
          omega
        · simp only [rowsSpecForest]
          rw [List.getElem?_append_right (by rw [rowsSpec_length]; omega)]
          rw [rowsSpec_length]
          have hidx : b - m - containerCount c = b - (m + containerCount c) := by
            omega
          rw [hidx]
          exact hrow
end

/-- C4: `createContainers` persists the container tree in pre-order — for
every parent/child edge of the persisted tree, the parent's catalog row
(carrying its assigned identity) is created strictly before the child's, the
child's row carries the parent's already-assigned identity (stringified) as
`parentContainerId`, the root's row carries `None`, and every row is created
with `containerSize` 0. -/
theorem createContainers_persists_preorder (t : ContainerTree) (n a b : Nat)
    (hab : (a, b) ∈ idEdges
        (createContainers t none { nextId := n, rows := [] }).1) :
    (∀ r ∈ (createContainers t none { nextId := n, rows := [] }).2.rows,
        r.containerSize = 0) ∧
    ((createContainers t none { nextId := n, rows := [] }).2.rows.map
        ContainerRow.parentContainerId).head? = some none ∧
    ∃ (i j : Nat) (ra : ContainerRow) (nmb : String), i < j ∧
      (createContainers t none { nextId := n, rows := [] }).2.rows[i]?
        = some ra ∧
      ra.containerId = a ∧
      (createContainers t none { nextId := n, rows := [] }).2.rows[j]?
        = some { containerId := b, containerName := nmb, containerSize := 0,
                 parentContainerId := some (toString a) } := by
  simp only [createContainers_eq, List.nil_append] at hab ⊢
  obtain ⟨ha, hab2, hb, nmb, hrow⟩ := idEdges_rows t none n a b hab
  refine ⟨rowsSpec_size_zero t none n, ?_, ?_⟩
  · cases t with
    | node name cs => simp [rowsSpec]
  · have hlen : (rowsSpec t none n).length = containerCount t :=
      rowsSpec_length t none n
    rcases hg : (rowsSpec t none n)[a - n]? with _ | ra
    · rw [List.getElem?_eq_none_iff] at hg
      omega
    · have hid := rowsSpec_idAt t none n (a - n) ra hg
      have h1 : a - n < b - n := by omega
      have h2 : ra.containerId = a := by omega
      exact ⟨a - n, b - n, ra, nmb, h1, hg, h2, hrow⟩

/-- Witness for C4: the scenario tree (A holding B), identities issued from
1 — the edge (1, 2) is persisted parent-first with the stated row shapes. -/
theorem createContainers_persists_preorder_witness :
    ((1, 2) ∈ idEdges
        (createContainers scenarioTree none { nextId := 1, rows := [] }).1) ∧
    ((∀ r ∈ (createContainers scenarioTree none
          { nextId := 1, rows := [] }).2.rows, r.containerSize = 0) ∧
     ((createContainers scenarioTree none
          { nextId := 1, rows := [] }).2.rows.map
        ContainerRow.parentContainerId).head? = some none ∧
     ∃ (i j : Nat) (ra : ContainerRow) (nmb : String), i < j ∧
       (createContainers scenarioTree none
           { nextId := 1, rows := [] }).2.rows[i]? = some ra ∧
       ra.containerId = 1 ∧
       (createContainers scenarioTree none
           { nextId := 1, rows := [] }).2.rows[j]?
         = some { containerId := 2, containerName := nmb, containerSize := 0,
                  parentContainerId := some (toString 1) }) :=
  ⟨by decide, createContainers_persists_preorder scenarioTree 1 1 2 (by decide)⟩
